import Mathlib

/-!
Verification of the check_bipm_data clock-file checker
(src/check_bipm_data/check.py) against its specification.

The embedding models:
* the two line-shape regexes (minimal_clock_regex, jump_regex) as
  deterministic matchers over lists of characters — legitimate because every
  adjacent pair of regex tokens draws from disjoint character classes, so
  greedy maximal-munch matching coincides with backtracking semantics;
* Python int()/float() conversion of fixed-column slices, restricted to the
  ASCII forms that can occur here (optional surrounding whitespace, optional
  sign, digits, optional fractional part and exponent; the underscore
  digit-separator and inf/nan spellings are outside the modelled subset);
  float values are modelled as exact rationals;
* parse_clockfile as a state-passing function over raw byte lines, including
  the persistence of the local variables mjd / lab_code / lab_acronym across
  lines of one file and the UnboundLocalError crash that occurs when such a
  variable is read before any assignment (modelled by a crashed flag that
  aborts all further processing, as the uncaught exception does);
* the step-correction and first/second-difference computations of main.
-/

/-! ### Character classes (Python re classes, restricted to ASCII input) -/

def isDigitB (c : Char) : Bool := '0' ≤ c && c ≤ '9'

def isSpaceB (c : Char) : Bool :=
  c = ' ' || c = '\t' || c = '\n' || c = '\x0d' || c = '\x0b' || c = '\x0c'

def isUpperB (c : Char) : Bool := 'A' ≤ c && c ≤ 'Z'

def isWordB (c : Char) : Bool :=
  isDigitB c || ('a' ≤ c && c ≤ 'z') || isUpperB c || c = '_'

/-! ### Python numeric conversions on fixed-column slices -/

def digitsVal (ds : List Char) : Nat :=
  ds.foldl (fun a c => a * 10 + (c.toNat - 48)) 0

def stripWs (s : List Char) : List Char :=
  ((s.dropWhile isSpaceB).reverse.dropWhile isSpaceB).reverse

/-- Model of Python int(s) on an ASCII string: optional surrounding
whitespace, optional sign, then one or more digits and nothing else. -/
def parseInt (s : List Char) : Option ℤ :=
  let t := stripWs s
  let p : ℤ × List Char :=
    match t with
    | '+' :: r => (1, r)
    | '-' :: r => (-1, r)
    | r => (1, r)
  if p.2.isEmpty then none
  else if p.2.all isDigitB then some (p.1 * digitsVal p.2) else none

/-- Model of the exponent tail of Python float(s): an optional sign then one
or more digits, consuming the whole remainder. -/
def parseExpPart (s : List Char) : Option ℤ :=
  let p : ℤ × List Char :=
    match s with
    | '+' :: r => (1, r)
    | '-' :: r => (-1, r)
    | r => (1, r)
  if p.2.isEmpty then none
  else if p.2.all isDigitB then some (p.1 * digitsVal p.2) else none

/-- Model of Python float(s) on an ASCII string, as an exact rational:
optional surrounding whitespace, optional sign, then digits with an optional
fractional part and an optional exponent (at least one digit overall). -/
def parseFloat (s : List Char) : Option ℚ :=
  let t := stripWs s
  let p : ℚ × List Char :=
    match t with
    | '+' :: r => (1, r)
    | '-' :: r => (-1, r)
    | r => (1, r)
  let ip := p.2.takeWhile isDigitB
  let r1 := p.2.dropWhile isDigitB
  match r1 with
  | [] => if ip.isEmpty then none else some (p.1 * digitsVal ip)
  | '.' :: r2 =>
    let fp := r2.takeWhile isDigitB
    let r3 := r2.dropWhile isDigitB
    if ip.isEmpty && fp.isEmpty then none
    else
      let base : ℚ :=
        p.1 * ((digitsVal ip : ℚ) + (digitsVal fp : ℚ) / (10 : ℚ) ^ fp.length)
      match r3 with
      | [] => some base
      | c :: r4 =>
        if c = 'e' || c = 'E' then
          (parseExpPart r4).map (fun ex => base * (10 : ℚ) ^ ex)
        else none
  | c :: r2 =>
    if (c = 'e' || c = 'E') && !ip.isEmpty then
      (parseExpPart r2).map (fun ex => (p.1 * digitsVal ip) * (10 : ℚ) ^ ex)
    else none

/-! ### Records (the python lists appended by parse_clockfile) -/

/-- One entry of the diffs list: [lab_code, clock_code, mjd, value]. -/
structure VRec where
  lab_code : ℤ
  clock_code : ℤ
  mjd : ℚ
  value : ℚ
deriving DecidableEq, Repr

/-- One entry of the jumps list:
[lab_code, lab_acronym, clock_code, mjd, time_step, freq_step]. -/
structure JRec where
  lab_code : ℤ
  lab_acronym : List Char
  clock_code : ℤ
  mjd : ℚ
  time_step : ℚ
  freq_step : ℚ
deriving DecidableEq, Repr

/-! ### Step correction (main, lines 137-154)

For one clock: this_clock_values sorted by mjd, this_clock_steps the jump
records of that clock.  Two zero-initialised accumulator arrays are updated
once per jump, then added to the value column. -/

/-- One sample of a clock series: a (mjd, val) pair. -/
structure Sample where
  mjd : ℚ
  val : ℚ
deriving DecidableEq, Repr

/-- Accumulated time correction for a sample at epoch m:
for each jump jp, steps_corr_time[mjds < jp.mjd] -= jp.time_step. -/
def stepCorrTime (jumps : List JRec) (m : ℚ) : ℚ :=
  jumps.foldl (fun acc jp => if m < jp.mjd then acc - jp.time_step else acc) 0

/-- Accumulated frequency correction for a sample at epoch m:
for each jump jp, steps_corr_freq[mjds < jp.mjd] -= jp.freq_step * (m - jp.mjd). -/
def stepCorrFreq (jumps : List JRec) (m : ℚ) : ℚ :=
  jumps.foldl
    (fun acc jp => if m < jp.mjd then acc - jp.freq_step * (m - jp.mjd) else acc) 0

/-- corrected_clock_values['val'] += steps_corr_time + steps_corr_freq,
applied to one sample. -/
def correctedVal (jumps : List JRec) (s : Sample) : Sample :=
  ⟨s.mjd, s.val + (stepCorrTime jumps s.mjd + stepCorrFreq jumps s.mjd)⟩

/-- The corrected series of one clock. -/
def correctSeries (jumps : List JRec) (samples : List Sample) : List Sample :=
  samples.map (correctedVal jumps)

/-! ### Differencing (main, lines 157-172; pandas Series.diff with NaN
modelled as Option.none, NaN propagation as Option.bind) -/

/-- pandas Series.diff on a column that may contain missing values: the
first element is missing, element i+1 is v[i+1] - v[i], and a missing
operand makes the result missing. -/
def diffOpt (vs : List (Option ℚ)) : List (Option ℚ) :=
  match vs with
  | [] => []
  | v :: rest =>
    none :: List.zipWith
      (fun a b => a.bind (fun x => b.map (fun y => y - x))) (v :: rest) rest

/-- First difference of a fully-present value column. -/
def firstDiffQ (vs : List ℚ) : List (Option ℚ) := diffOpt (vs.map some)

/-- Second difference: pandas diff applied to the first-difference column. -/
def secondDiffQ (vs : List ℚ) : List (Option ℚ) := diffOpt (firstDiffQ vs)

/-! ### Lemmas about the step corrector -/

theorem foldl_condSub_eq (g : JRec → ℚ) (c : JRec → Prop) [DecidablePred c] :
    ∀ (l : List JRec) (a : ℚ),
      l.foldl (fun acc jp => if c jp then acc - g jp else acc) a
        = a - (l.map (fun jp => if c jp then g jp else 0)).sum := by
  intro l
  induction l with
  | nil => intro a; simp
  | cons j t ih =>
    intro a
    simp only [List.foldl_cons, List.map_cons, List.sum_cons, ih]
    by_cases h : c j
    · simp [h]; ring
    · simp [h]

theorem stepCorrTime_eq_sum (jumps : List JRec) (m : ℚ) :
    stepCorrTime jumps m
      = 0 - (jumps.map (fun jp => if m < jp.mjd then jp.time_step else 0)).sum := by
  exact foldl_condSub_eq (fun jp => jp.time_step) (fun jp => m < jp.mjd) jumps 0

theorem stepCorrFreq_eq_sum (jumps : List JRec) (m : ℚ) :
    stepCorrFreq jumps m
      = 0 - (jumps.map
          (fun jp => if m < jp.mjd then jp.freq_step * (m - jp.mjd) else 0)).sum := by
  exact foldl_condSub_eq
    (fun jp => jp.freq_step * (m - jp.mjd)) (fun jp => m < jp.mjd) jumps 0

/-- C1: for a single jump at mjd M with time_step T and freq_step F, every
sample with mjd < M gets corrected value raw - T - F*(mjd - M) and every
sample with mjd >= M keeps its raw value; a clock with an empty jump list
has corrected series equal to the raw series element-wise. -/
theorem C1_single_jump_correction (j : JRec) (samples : List Sample) :
    correctSeries [j] samples
      = samples.map (fun s =>
          if s.mjd < j.mjd then
            ⟨s.mjd, s.val - j.time_step - j.freq_step * (s.mjd - j.mjd)⟩
          else s)
    ∧ correctSeries [] samples = samples := by
  constructor
  · unfold correctSeries
    apply List.map_congr_left
    intro s _
    unfold correctedVal stepCorrTime stepCorrFreq
    by_cases h : s.mjd < j.mjd
    · simp only [List.foldl_cons, List.foldl_nil, if_pos h]
      have : s.val + (0 - j.time_step + (0 - j.freq_step * (s.mjd - j.mjd)))
          = s.val - j.time_step - j.freq_step * (s.mjd - j.mjd) := by ring
      rw [this]
    · simp only [List.foldl_cons, List.foldl_nil, if_neg h]
      simp
  · unfold correctSeries correctedVal stepCorrTime stepCorrFreq
    simp

/-- C2: the per-sample correction is additive over the jump list and
independent of the order of the jump events: permuting the jump list leaves
the corrected series unchanged. -/
theorem C2_jump_order_independent (jumps1 jumps2 : List JRec)
    (samples : List Sample) (h : jumps1.Perm jumps2) :
    correctSeries jumps1 samples = correctSeries jumps2 samples := by
  unfold correctSeries
  apply List.map_congr_left
  intro s _
  unfold correctedVal
  rw [stepCorrTime_eq_sum, stepCorrTime_eq_sum, stepCorrFreq_eq_sum,
    stepCorrFreq_eq_sum,
    (h.map (fun jp => if s.mjd < jp.mjd then jp.time_step else 0)).sum_eq,
    (h.map (fun jp =>
      if s.mjd < jp.mjd then jp.freq_step * (s.mjd - jp.mjd) else 0)).sum_eq]

/-- C2 witness: a concrete swap of two jumps leaves the corrected series
unchanged. -/
theorem C2_jump_order_independent_witness :
    correctSeries [⟨1, ['A'], 7, 10, 2, 3⟩, ⟨1, ['A'], 7, 20, 5, 1⟩]
        [⟨5, 100⟩, ⟨15, 200⟩, ⟨25, 300⟩]
      = correctSeries [⟨1, ['A'], 7, 20, 5, 1⟩, ⟨1, ['A'], 7, 10, 2, 3⟩]
        [⟨5, 100⟩, ⟨15, 200⟩, ⟨25, 300⟩] :=
  C2_jump_order_independent _ _ _ (List.Perm.swap _ _ _)

/-! ### Lemmas about differencing -/

theorem diffOpt_head (xs : List (Option ℚ)) (h : xs ≠ []) :
    (diffOpt xs)[0]? = some none := by
  cases xs with
  | nil => exact absurd rfl h
  | cons v rest => simp [diffOpt]

theorem diffOpt_shift (u r : Option ℚ) (rr : List (Option ℚ)) (i : Nat) :
    (diffOpt (u :: r :: rr))[i + 2]? = (diffOpt (r :: rr))[i + 1]? := by
  simp [diffOpt, List.zipWith]

theorem diffOpt_idx :
    ∀ (xs : List (Option ℚ)) (i : Nat) (a b : Option ℚ),
      xs[i]? = some a → xs[i + 1]? = some b →
      (diffOpt xs)[i + 1]?
        = some (a.bind (fun x => b.map (fun y => y - x))) := by
  intro xs
  induction xs with
  | nil => intro i a b ha _; simp at ha
  | cons u rest ih =>
    intro i a b ha hb
    cases i with
    | zero =>
      simp only [List.getElem?_cons_zero, Option.some.injEq] at ha
      cases rest with
      | nil => simp at hb
      | cons r rr =>
        simp only [List.getElem?_cons_succ, List.getElem?_cons_zero,
          Option.some.injEq] at hb
        subst ha; subst hb
        simp [diffOpt]
    | succ k =>
      simp only [List.getElem?_cons_succ] at ha hb
      cases rest with
      | nil => simp at ha
      | cons r rr =>
        rw [diffOpt_shift]
        exact ih k a b ha hb

theorem diffOpt_length (xs : List (Option ℚ)) :
    (diffOpt xs).length = xs.length := by
  cases xs with
  | nil => rfl
  | cons v rest => simp [diffOpt, List.length_zipWith]

/-- C7: the first-difference sequence has each element equal to the current
value minus the immediately preceding value, with the first element missing;
the second-difference sequence is the first difference of the first
difference, so its first two elements are missing; for a 3-point series
[v0, v1, v2] this gives 1diff = [missing, v1-v0, v2-v1] and
2diff = [missing, missing, (v2-v1)-(v1-v0)]. -/
theorem C7_differencing :
    (∀ (vs : List ℚ) (i : Nat) (a b : ℚ), vs[i]? = some a →
        vs[i + 1]? = some b → (firstDiffQ vs)[i + 1]? = some (some (b - a)))
    ∧ (∀ vs : List ℚ, vs ≠ [] → (firstDiffQ vs)[0]? = some none)
    ∧ (∀ vs : List ℚ, vs ≠ [] → (secondDiffQ vs)[0]? = some none)
    ∧ (∀ vs : List ℚ, 2 ≤ vs.length → (secondDiffQ vs)[1]? = some none)
    ∧ (∀ v0 v1 v2 : ℚ,
        firstDiffQ [v0, v1, v2] = [none, some (v1 - v0), some (v2 - v1)]
        ∧ secondDiffQ [v0, v1, v2]
            = [none, none, some ((v2 - v1) - (v1 - v0))]) := by
  refine ⟨?_, ?_, ?_, ?_, ?_⟩
  · intro vs i a b ha hb
    have hma : (vs.map some)[i]? = some (some a) := by
      rw [List.getElem?_map, ha]; rfl
    have hmb : (vs.map some)[i + 1]? = some (some b) := by
      rw [List.getElem?_map, hb]; rfl
    have := diffOpt_idx (vs.map some) i (some a) (some b) hma hmb
    simpa [firstDiffQ] using this
  · intro vs h
    exact diffOpt_head _ (by simpa using h)
  · intro vs h
    apply diffOpt_head
    intro hc
    have := diffOpt_length (vs.map some)
    rw [show diffOpt (vs.map some) = firstDiffQ vs from rfl, hc] at this
    simp at this
    exact h (List.eq_nil_of_length_eq_zero this.symm)
  · intro vs h
    match vs, h with
    | v0 :: v1 :: t, _ => simp [secondDiffQ, firstDiffQ, diffOpt]
  · intro v0 v1 v2
    exact ⟨rfl, rfl⟩

/-- C7 witness: the differencing claims instantiated on the concrete series
[1, 4, 9]. -/
theorem C7_differencing_witness :
    (firstDiffQ [1, 4, 9])[1]? = some (some ((4 : ℚ) - 1))
    ∧ (firstDiffQ [(1 : ℚ), 4, 9])[0]? = some none
    ∧ (secondDiffQ [(1 : ℚ), 4, 9])[0]? = some none
    ∧ (secondDiffQ [(1 : ℚ), 4, 9])[1]? = some none :=
  ⟨C7_differencing.1 [1, 4, 9] 0 1 4 (by decide) (by decide),
   C7_differencing.2.1 [1, 4, 9] (by decide),
   C7_differencing.2.2.1 [1, 4, 9] (by decide),
   C7_differencing.2.2.2.1 [1, 4, 9] (by decide)⟩

/-! ### Deterministic matchers for the two line-shape regexes

minimal_clock_regex and jump_regex from check.py.  Each combinator returns
the unmatched remainder on success.  Greedy one-or-more runs are sound here
because in both regexes every run is followed by a token from a disjoint
character class. -/

def takeExactly (p : Char → Bool) : Nat → List Char → Option (List Char)
  | 0, s => some s
  | _ + 1, [] => none
  | n + 1, c :: s => if p c then takeExactly p n s else none

def takePlus (p : Char → Bool) : List Char → Option (List Char)
  | [] => none
  | c :: s => if p c then some (s.dropWhile p) else none

def takeChar (ch : Char) : List Char → Option (List Char)
  | [] => none
  | c :: s => if c = ch then some s else none

def dropOptSign (s : List Char) : List Char :=
  match s with
  | c :: t => if c = '+' || c = '-' then t else s
  | [] => s

/-- The regex fragment [+-]?\d+\.\d+ shared by both line shapes. -/
def takeNumber (s : List Char) : Option (List Char) := do
  let s1 ← takePlus isDigitB (dropOptSign s)
  let s2 ← takeChar '.' s1
  takePlus isDigitB s2

/-- re.match of minimal_clock_regex:
five digits, whitespace, five digits, whitespace, seven digits, whitespace,
then a signed decimal number, anchored at the start of the line. -/
def matchClock (s : List Char) : Bool :=
  (do
    let a ← takeExactly isDigitB 5 s
    let b ← takePlus isSpaceB a
    let c ← takeExactly isDigitB 5 b
    let d ← takePlus isSpaceB c
    let e ← takeExactly isDigitB 7 d
    let f ← takePlus isSpaceB e
    takeNumber f).isSome

/-- re.match of jump_regex:
a decimal number whose integer part has exactly five digits, whitespace,
seven digits, whitespace, two signed decimal numbers separated by
whitespace, whitespace, one or more word characters, whitespace, five
digits, anchored at the start of the line. -/
def matchJump (s : List Char) : Bool :=
  (do
    let a ← takeExactly isDigitB 5 s
    let b ← takeChar '.' a
    let c ← takePlus isDigitB b
    let d ← takePlus isSpaceB c
    let e ← takeExactly isDigitB 7 d
    let f ← takePlus isSpaceB e
    let g ← takeNumber f
    let h ← takePlus isSpaceB g
    let j ← takeNumber h
    let k ← takePlus isSpaceB j
    let l ← takePlus isWordB k
    let m ← takePlus isSpaceB l
    takeExactly isDigitB 5 m).isSome

/-- re.match of the acronym shape check [A-Z]+: at least one uppercase
letter at the start of the string. -/
def matchAcronym : List Char → Bool
  | [] => false
  | c :: _ => isUpperB c

/-! ### The parser state

The Python locals mjd, lab_code and lab_acronym survive from one line to
the next inside one parse_clockfile call and are read by later lines, so
they are part of the state; reading one that was never assigned raises
UnboundLocalError, which no handler catches — modelled by the crashed flag,
which stops all further line and file processing. -/

/-- Diagnostics emitted through logging, by emission site. -/
inductive Diag where
  | nonAsciiWarning
  | mjdLabError
  | slotError
  | jumpError
  | acronymWarning
  | missingFileError
deriving DecidableEq, Repr

/-- The function-local variables of parse_clockfile that are read by later
iterations of its line loop. -/
structure Env where
  mjd : Option ℚ
  lab_code : Option ℤ
  lab_acronym : Option (List Char)
deriving DecidableEq, Repr

def Env.empty : Env := ⟨none, none, none⟩

/-- Parser state: the crashed flag (an uncaught exception has been raised),
the local-variable environment, the two caller-supplied accumulator lists
and the diagnostics emitted so far. -/
structure PState where
  crashed : Bool
  env : Env
  diffs : List VRec
  jumps : List JRec
  diags : List Diag
deriving DecidableEq, Repr

def initState : PState := ⟨false, Env.empty, [], [], []⟩

/-- Python slice s[a:b] for 0 <= a <= b (out-of-range indices clamp). -/
def pySlice (s : List Char) (a b : Nat) : List Char := (s.take b).drop a

/-- line.decode('ascii', errors='ignore'): non-ASCII bytes are dropped. -/
def decodeAscii (raw : List Nat) : List Char :=
  (raw.filter (fun b => b < 128)).map Char.ofNat

/-- line.decode('ascii') raises UnicodeDecodeError iff some byte is >= 128. -/
def hasNonAscii (raw : List Nat) : Bool := raw.any (fun b => 128 ≤ b)

/-! ### Clock-value branch (check.py lines 40-70) -/

/-- One iteration of the slot loop for i in range(5): slot i starts at
column 12 + i*18; if the raw byte line is too short the slot is skipped;
the clock code is int(ascii_line[start:start+7]) and the value is
float(ascii_line[start+8:start+17]); a conversion failure logs an error and
skips the slot; on success the append reads the locals lab_code and mjd,
raising UnboundLocalError if either was never assigned. -/
def slotStep (rawLen : Nat) (ascii : List Char) (st : PState) (i : Nat) :
    PState :=
  if st.crashed then st
  else
    let start := 12 + i * 18
    if start + 18 > rawLen then st
    else
      match parseInt (pySlice ascii start (start + 7)) with
      | none => { st with diags := st.diags ++ [Diag.slotError] }
      | some cc =>
        match parseFloat (pySlice ascii (start + 8) (start + 17)) with
        | none => { st with diags := st.diags ++ [Diag.slotError] }
        | some v =>
          match st.env.lab_code, st.env.mjd with
          | some lc, some m =>
            { st with diffs := st.diffs ++ [⟨lc, cc, m, v⟩] }
          | _, _ => { st with crashed := true }

/-- The header of the clock-value branch: try mjd = int(line[0:5]) and
lab_code = int(line[6:11]), logging an error on ValueError and keeping any
previous bindings. -/
def clockHeader (ascii : List Char) (st : PState) : PState :=
  match parseInt (pySlice ascii 0 5) with
  | none => { st with diags := st.diags ++ [Diag.mjdLabError] }
  | some m =>
    let st2 := { st with env := { st.env with mjd := some m } }
    match parseInt (pySlice ascii 6 11) with
    | none => { st2 with diags := st2.diags ++ [Diag.mjdLabError] }
    | some lc => { st2 with env := { st2.env with lab_code := some lc } }

/-- The clock-value branch: the header parse followed by the five slot
iterations of for i in range(5). -/
def clockBranch (rawLen : Nat) (ascii : List Char) (st : PState) : PState :=
  List.foldl (slotStep rawLen ascii) (clockHeader ascii st) [0, 1, 2, 3, 4]

/-! ### Jump branch (check.py lines 71-90) -/

/-- The except branch of the jump try: log the error, then evaluate
re.match('[A-Z]+', lab_acronym) on the local lab_acronym — which raises
UnboundLocalError when that local was never assigned — and log a warning
when the acronym does not match. -/
def jumpFail (st : PState) : PState :=
  let st1 := { st with diags := st.diags ++ [Diag.jumpError] }
  match st1.env.lab_acronym with
  | none => { st1 with crashed := true }
  | some a =>
    if matchAcronym a then st1
    else { st1 with diags := st1.diags ++ [Diag.acronymWarning] }

/-- The jump branch: parse the six fixed-column fields in program order,
updating each local as its assignment succeeds; on the first ValueError run
the except branch; on full success append the jump record (no acronym check
happens on this path). -/
def jumpBranch (ascii : List Char) (st : PState) : PState :=
  match parseFloat (pySlice ascii 0 8) with
  | none => jumpFail st
  | some m =>
    let st1 := { st with env := { st.env with mjd := some m } }
    match parseInt (pySlice ascii 9 16) with
    | none => jumpFail st1
    | some cc =>
      match parseFloat (pySlice ascii 17 26) with
      | none => jumpFail st1
      | some ts =>
        match parseFloat (pySlice ascii 27 36) with
        | none => jumpFail st1
        | some fs =>
          let acr := pySlice ascii 40 44
          let st2 := { st1 with env := { st1.env with lab_acronym := some acr } }
          match parseInt (pySlice ascii 45 50) with
          | none => jumpFail st2
          | some lc =>
            { st2 with
              env := { st2.env with lab_code := some lc },
              jumps := st2.jumps ++ [⟨lc, acr, cc, m, ts, fs⟩] }

/-- Processing of one raw byte line of the file: decode (with a warning and
lossy re-decode on non-ASCII bytes), then the clock-value branch if the
clock regex matches, then the jump branch if the jump regex matches.  A
crashed state is returned unchanged: the exception has already unwound the
loop. -/
def processLine (st : PState) (raw : List Nat) : PState :=
  if st.crashed then st
  else
    let ascii := decodeAscii raw
    let st1 :=
      if hasNonAscii raw then
        { st with diags := st.diags ++ [Diag.nonAsciiWarning] }
      else st
    let st2 := if matchClock ascii then clockBranch raw.length ascii st1 else st1
    if st2.crashed then st2
    else if matchJump ascii then jumpBranch ascii st2 else st2

/-- parse_clockfile: the filesystem is an association list from path to the
list of raw byte lines; a missing path logs an error and returns without
touching the accumulators; otherwise every line is processed in order with
the function-local environment starting out unbound. -/
def parse_clockfile (fs : List (String × List (List Nat))) (filepath : String)
    (st : PState) : PState :=
  match fs.lookup filepath with
  | none => { st with diags := st.diags ++ [Diag.missingFileError] }
  | some lines => lines.foldl processLine { st with env := Env.empty }

/-- The batch loop of main: parse every file in order into the shared
accumulators; an uncaught exception (crashed state) aborts the rest of the
batch. -/
def runBatch (fs : List (String × List (List Nat))) (files : List String)
    (st : PState) : PState :=
  files.foldl (fun s f => if s.crashed then s else parse_clockfile fs f s) st

/-- Byte list of an ASCII string literal (used for concrete input lines). -/
def strBytes (s : String) : List Nat := s.data.map Char.toNat

/-! ### Character-class disjointness -/

theorem space_cases (c : Char) (h : isSpaceB c = true) :
    c = ' ' ∨ c = '\t' ∨ c = '\n' ∨ c = '\x0d' ∨ c = '\x0b' ∨ c = '\x0c' := by
  simp [isSpaceB] at h
  tauto

theorem space_not_digit (c : Char) (h : isSpaceB c = true) :
    isDigitB c = false := by
  rcases space_cases c h with rfl | rfl | rfl | rfl | rfl | rfl <;> decide

theorem space_not_word (c : Char) (h : isSpaceB c = true) :
    isWordB c = false := by
  rcases space_cases c h with rfl | rfl | rfl | rfl | rfl | rfl <;> decide

theorem space_ne_dot (c : Char) (h : isSpaceB c = true) : c ≠ '.' := by
  rcases space_cases c h with rfl | rfl | rfl | rfl | rfl | rfl <;> decide

theorem digit_not_space (c : Char) (h : isDigitB c = true) :
    isSpaceB c = false := by
  cases hs : isSpaceB c with
  | false => rfl
  | true =>
    exfalso
    rcases space_cases c hs with rfl | rfl | rfl | rfl | rfl | rfl <;>
      exact absurd h (by decide)

theorem word_not_space (c : Char) (h : isWordB c = true) :
    isSpaceB c = false := by
  cases hs : isSpaceB c with
  | false => rfl
  | true => rw [space_not_word c hs] at h; exact absurd h (by decide)

theorem digit_not_sign (c : Char) (h : isDigitB c = true) :
    (c = '+' || c = '-') = false := by
  by_cases h1 : c = '+'
  · subst h1; exact absurd h (by decide)
  · by_cases h2 : c = '-'
    · subst h2; exact absurd h (by decide)
    · simp [h1, h2]

theorem digit_ne_dot (c : Char) (h : isDigitB c = true) : c ≠ '.' := by
  intro hc; subst hc; exact absurd h (by decide)

/-! ### Composition lemmas for the matcher combinators -/

/-- The first character of the remainder does not satisfy p (vacuous for an
empty remainder). -/
def headNot (p : Char → Bool) : List Char → Prop
  | [] => True
  | c :: _ => p c = false

theorem takeExactly_append (p : Char → Bool) :
    ∀ (xs ys : List Char), xs.all p = true →
      takeExactly p xs.length (xs ++ ys) = some ys := by
  intro xs
  induction xs with
  | nil => intro ys _; rfl
  | cons x t ih =>
    intro ys hall
    simp only [List.all_cons, Bool.and_eq_true] at hall
    simpa [takeExactly, hall.1] using ih ys hall.2

theorem dropWhile_append_all (p : Char → Bool) :
    ∀ (xs ys : List Char), xs.all p = true → headNot p ys →
      (xs ++ ys).dropWhile p = ys := by
  intro xs
  induction xs with
  | nil =>
    intro ys _ hys
    cases ys with
    | nil => rfl
    | cons y t =>
      simp only [headNot] at hys
      simp [List.dropWhile, hys]
  | cons x t ih =>
    intro ys hall hys
    simp only [List.all_cons, Bool.and_eq_true] at hall
    simpa [List.dropWhile, hall.1] using ih ys hall.2 hys

theorem takePlus_append (p : Char → Bool) (xs ys : List Char)
    (hne : xs ≠ []) (hall : xs.all p = true) (hys : headNot p ys) :
    takePlus p (xs ++ ys) = some ys := by
  cases xs with
  | nil => exact absurd rfl hne
  | cons x t =>
    simp only [List.all_cons, Bool.and_eq_true] at hall
    simp [takePlus, hall.1, dropWhile_append_all p t ys hall.2 hys]

theorem takeChar_cons (c : Char) (ys : List Char) :
    takeChar c (c :: ys) = some ys := by
  simp [takeChar]

/-- headNot for a remainder that starts with a run of whitespace. -/
theorem headNot_digit_of_space (w : List Char) (zs : List Char)
    (hne : w ≠ []) (hall : w.all isSpaceB = true) :
    headNot isDigitB (w ++ zs) := by
  cases w with
  | nil => exact absurd rfl hne
  | cons c t =>
    simp only [List.all_cons, Bool.and_eq_true] at hall
    simpa [headNot] using space_not_digit c hall.1

theorem headNot_space_of_digitrun (d : List Char) (zs : List Char)
    (hne : d ≠ []) (hall : d.all isDigitB = true) :
    headNot isSpaceB (d ++ zs) := by
  cases d with
  | nil => exact absurd rfl hne
  | cons c t =>
    simp only [List.all_cons, Bool.and_eq_true] at hall
    simpa [headNot] using digit_not_space c hall.1

/-- dropOptSign on a rendered signed number followed by anything. -/
theorem dropOptSign_render (sgn ip : List Char) (zs : List Char)
    (hs : sgn = [] ∨ sgn = ['+'] ∨ sgn = ['-'])
    (hip : ip ≠ []) (hall : ip.all isDigitB = true) :
    dropOptSign (sgn ++ (ip ++ zs)) = ip ++ zs := by
  rcases hs with rfl | rfl | rfl
  · cases ip with
    | nil => exact absurd rfl hip
    | cons c t =>
      simp only [List.all_cons, Bool.and_eq_true] at hall
      simp [dropOptSign, digit_not_sign c hall.1]
  · simp [dropOptSign]
  · simp [dropOptSign]

/-- takeNumber consumes a rendered signed decimal number exactly, when the
remainder does not start with a digit. -/
theorem takeNumber_append (sgn ip fp ys : List Char)
    (hs : sgn = [] ∨ sgn = ['+'] ∨ sgn = ['-'])
    (hip : ip ≠ []) (hipd : ip.all isDigitB = true)
    (hfp : fp ≠ []) (hfpd : fp.all isDigitB = true)
    (hys : headNot isDigitB ys) :
    takeNumber (sgn ++ (ip ++ '.' :: (fp ++ ys))) = some ys := by
  have h1 : dropOptSign (sgn ++ (ip ++ '.' :: (fp ++ ys)))
      = ip ++ '.' :: (fp ++ ys) :=
    dropOptSign_render sgn ip ('.' :: (fp ++ ys)) hs hip hipd
  have h2 : takePlus isDigitB (ip ++ '.' :: (fp ++ ys))
      = some ('.' :: (fp ++ ys)) :=
    takePlus_append isDigitB ip ('.' :: (fp ++ ys)) hip hipd
      (show isDigitB '.' = false by decide)
  unfold takeNumber
  rw [h1, h2]
  simp [takeChar_cons, takePlus_append isDigitB fp ys hfp hfpd hys]

theorem takePlus_inv (p : Char → Bool) (l r : List Char)
    (h : takePlus p l = some r) : ∃ c t, l = c :: t ∧ p c = true := by
  cases l with
  | nil => simp [takePlus] at h
  | cons c t =>
    by_cases hc : p c
    · exact ⟨c, t, rfl, hc⟩
    · simp [takePlus, hc] at h

/-- No line can match both the clock shape and the jump shape: after the
five leading digits the clock regex requires whitespace where the jump
regex requires a dot. -/
theorem matchClock_not_matchJump (s : List Char)
    (h : matchClock s = true) : matchJump s = false := by
  cases h5 : takeExactly isDigitB 5 s with
  | none => rw [matchClock] at h; simp [h5] at h
  | some a =>
    cases ha : takePlus isSpaceB a with
    | none => rw [matchClock] at h; simp [h5, ha] at h
    | some b =>
      obtain ⟨c, t, rfl, hc⟩ := takePlus_inv _ _ _ ha
      rw [matchJump]
      simp [h5, takeChar, space_ne_dot c hc]

theorem matchJump_not_matchClock (s : List Char)
    (h : matchJump s = true) : matchClock s = false := by
  cases hc : matchClock s with
  | false => rfl
  | true => rw [matchClock_not_matchJump s hc] at h; exact absurd h (by decide)

theorem takePlus_isSome (p : Char → Bool) (xs zs : List Char)
    (hne : xs ≠ []) (hall : xs.all p = true) :
    ∃ r, takePlus p (xs ++ zs) = some r := by
  cases xs with
  | nil => exact absurd rfl hne
  | cons x t =>
    simp only [List.all_cons, Bool.and_eq_true] at hall
    exact ⟨(t ++ zs).dropWhile p, by simp [takePlus, hall.1]⟩

theorem headNot_space_of_signednum (sgn ip : List Char) (zs : List Char)
    (hs : sgn = [] ∨ sgn = ['+'] ∨ sgn = ['-'])
    (hip : ip ≠ []) (hipd : ip.all isDigitB = true) :
    headNot isSpaceB (sgn ++ (ip ++ zs)) := by
  rcases hs with rfl | rfl | rfl
  · simp only [List.nil_append]
    cases ip with
    | nil => exact absurd rfl hip
    | cons c t =>
      simp only [List.all_cons, Bool.and_eq_true] at hipd
      simpa [headNot] using digit_not_space c hipd.1
  · simpa [headNot] using (by decide : isSpaceB '+' = false)
  · simpa [headNot] using (by decide : isSpaceB '-' = false)

theorem takeNumber_isSome (sgn ip fp zs : List Char)
    (hs : sgn = [] ∨ sgn = ['+'] ∨ sgn = ['-'])
    (hip : ip ≠ []) (hipd : ip.all isDigitB = true)
    (hfp : fp ≠ []) (hfpd : fp.all isDigitB = true) :
    ∃ r, takeNumber (sgn ++ (ip ++ '.' :: (fp ++ zs))) = some r := by
  have h1 : dropOptSign (sgn ++ (ip ++ '.' :: (fp ++ zs)))
      = ip ++ '.' :: (fp ++ zs) :=
    dropOptSign_render sgn ip ('.' :: (fp ++ zs)) hs hip hipd
  have h2 : takePlus isDigitB (ip ++ '.' :: (fp ++ zs))
      = some ('.' :: (fp ++ zs)) :=
    takePlus_append isDigitB ip ('.' :: (fp ++ zs)) hip hipd
      (show isDigitB '.' = false by decide)
  obtain ⟨r, hr⟩ := takePlus_isSome isDigitB fp zs hfp hfpd
  refine ⟨r, ?_⟩
  unfold takeNumber
  rw [h1, h2]
  simp [takeChar_cons, hr]

/-! ### Well-formed lines (spec section 4.1) -/

/-- The constituents of a well-formed clock-value line: five digits,
whitespace, five digits, whitespace, seven digits, whitespace, a signed
decimal number, then an arbitrary remainder. -/
structure ClockLineParts where
  d1 : List Char
  w1 : List Char
  d2 : List Char
  w2 : List Char
  d3 : List Char
  w3 : List Char
  sgn : List Char
  ip : List Char
  fp : List Char
  rest : List Char

def ClockLineParts.render (p : ClockLineParts) : List Char :=
  p.d1 ++ (p.w1 ++ (p.d2 ++ (p.w2 ++ (p.d3 ++ (p.w3 ++ (p.sgn ++ (p.ip ++ ('.' :: (p.fp ++ p.rest)))))))))

def ClockLineParts.WF (p : ClockLineParts) : Prop :=
  p.d1.length = 5 ∧ p.d1.all isDigitB = true
  ∧ p.w1 ≠ [] ∧ p.w1.all isSpaceB = true
  ∧ p.d2.length = 5 ∧ p.d2.all isDigitB = true
  ∧ p.w2 ≠ [] ∧ p.w2.all isSpaceB = true
  ∧ p.d3.length = 7 ∧ p.d3.all isDigitB = true
  ∧ p.w3 ≠ [] ∧ p.w3.all isSpaceB = true
  ∧ (p.sgn = [] ∨ p.sgn = ['+'] ∨ p.sgn = ['-'])
  ∧ p.ip ≠ [] ∧ p.ip.all isDigitB = true
  ∧ p.fp ≠ [] ∧ p.fp.all isDigitB = true

/-- The constituents of a well-formed jump line: five digits, a dot, more
digits, whitespace, seven digits, whitespace, two signed decimal numbers
separated by whitespace, whitespace, a word, whitespace, five digits, then
an arbitrary remainder. -/
structure JumpLineParts where
  d1 : List Char
  f1 : List Char
  w1 : List Char
  d2 : List Char
  w2 : List Char
  sgn1 : List Char
  ip1 : List Char
  fp1 : List Char
  w3 : List Char
  sgn2 : List Char
  ip2 : List Char
  fp2 : List Char
  w4 : List Char
  wrd : List Char
  w5 : List Char
  d3 : List Char
  rest : List Char

def JumpLineParts.render (p : JumpLineParts) : List Char :=
  p.d1 ++ ('.' :: (p.f1 ++ (p.w1 ++ (p.d2 ++ (p.w2 ++ (p.sgn1 ++ (p.ip1 ++ ('.' :: (p.fp1 ++ (p.w3 ++ (p.sgn2 ++ (p.ip2 ++ ('.' :: (p.fp2 ++ (p.w4 ++ (p.wrd ++ (p.w5 ++ (p.d3 ++ p.rest))))))))))))))))))

def JumpLineParts.WF (p : JumpLineParts) : Prop :=
  p.d1.length = 5 ∧ p.d1.all isDigitB = true
  ∧ p.f1 ≠ [] ∧ p.f1.all isDigitB = true
  ∧ p.w1 ≠ [] ∧ p.w1.all isSpaceB = true
  ∧ p.d2.length = 7 ∧ p.d2.all isDigitB = true
  ∧ p.w2 ≠ [] ∧ p.w2.all isSpaceB = true
  ∧ (p.sgn1 = [] ∨ p.sgn1 = ['+'] ∨ p.sgn1 = ['-'])
  ∧ p.ip1 ≠ [] ∧ p.ip1.all isDigitB = true
  ∧ p.fp1 ≠ [] ∧ p.fp1.all isDigitB = true
  ∧ p.w3 ≠ [] ∧ p.w3.all isSpaceB = true
  ∧ (p.sgn2 = [] ∨ p.sgn2 = ['+'] ∨ p.sgn2 = ['-'])
  ∧ p.ip2 ≠ [] ∧ p.ip2.all isDigitB = true
  ∧ p.fp2 ≠ [] ∧ p.fp2.all isDigitB = true
  ∧ p.w4 ≠ [] ∧ p.w4.all isSpaceB = true
  ∧ p.wrd ≠ [] ∧ p.wrd.all isWordB = true
  ∧ p.w5 ≠ [] ∧ p.w5.all isSpaceB = true
  ∧ p.d3.length = 5 ∧ p.d3.all isDigitB = true


theorem headNot_word_of_space (w : List Char) (zs : List Char)
    (hne : w ≠ []) (hall : w.all isSpaceB = true) :
    headNot isWordB (w ++ zs) := by
  cases w with
  | nil => exact absurd rfl hne
  | cons c t =>
    simp only [List.all_cons, Bool.and_eq_true] at hall
    simpa [headNot] using space_not_word c hall.1

theorem ne_nil_of_length_eq_succ (l : List Char) (n : Nat)
    (h : l.length = n + 1) : l ≠ [] := by
  intro hc; rw [hc] at h; simp at h

/-- A well-formed clock-value line matches the clock shape. -/
theorem matchClock_render (p : ClockLineParts) (h : p.WF) :
    matchClock p.render = true := by
  obtain ⟨hl1, hd1, hw1, hw1s, hl2, hd2, hw2, hw2s, hl3, hd3, hw3, hw3s,
    hsgn, hip, hipd, hfp, hfpd⟩ := h
  have hne2 : p.d2 ≠ [] := ne_nil_of_length_eq_succ p.d2 4 hl2
  have hne3 : p.d3 ≠ [] := ne_nil_of_length_eq_succ p.d3 6 hl3
  have h1 : takeExactly isDigitB 5 (p.d1 ++ (p.w1 ++ (p.d2 ++ (p.w2 ++ (p.d3 ++ (p.w3 ++ (p.sgn ++ (p.ip ++ ('.' :: (p.fp ++ p.rest)))))))))) = some (p.w1 ++ (p.d2 ++ (p.w2 ++ (p.d3 ++ (p.w3 ++ (p.sgn ++ (p.ip ++ ('.' :: (p.fp ++ p.rest))))))))) := by
    rw [← hl1]; exact takeExactly_append isDigitB p.d1 _ hd1
  have h2 : takePlus isSpaceB (p.w1 ++ (p.d2 ++ (p.w2 ++ (p.d3 ++ (p.w3 ++ (p.sgn ++ (p.ip ++ ('.' :: (p.fp ++ p.rest))))))))) = some (p.d2 ++ (p.w2 ++ (p.d3 ++ (p.w3 ++ (p.sgn ++ (p.ip ++ ('.' :: (p.fp ++ p.rest)))))))) :=
    takePlus_append isSpaceB p.w1 _ hw1 hw1s
      (headNot_space_of_digitrun p.d2 _ hne2 hd2)
  have h3 : takeExactly isDigitB 5 (p.d2 ++ (p.w2 ++ (p.d3 ++ (p.w3 ++ (p.sgn ++ (p.ip ++ ('.' :: (p.fp ++ p.rest)))))))) = some (p.w2 ++ (p.d3 ++ (p.w3 ++ (p.sgn ++ (p.ip ++ ('.' :: (p.fp ++ p.rest))))))) := by
    rw [← hl2]; exact takeExactly_append isDigitB p.d2 _ hd2
  have h4 : takePlus isSpaceB (p.w2 ++ (p.d3 ++ (p.w3 ++ (p.sgn ++ (p.ip ++ ('.' :: (p.fp ++ p.rest))))))) = some (p.d3 ++ (p.w3 ++ (p.sgn ++ (p.ip ++ ('.' :: (p.fp ++ p.rest)))))) :=
    takePlus_append isSpaceB p.w2 _ hw2 hw2s
      (headNot_space_of_digitrun p.d3 _ hne3 hd3)
  have h5 : takeExactly isDigitB 7 (p.d3 ++ (p.w3 ++ (p.sgn ++ (p.ip ++ ('.' :: (p.fp ++ p.rest)))))) = some (p.w3 ++ (p.sgn ++ (p.ip ++ ('.' :: (p.fp ++ p.rest))))) := by
    rw [← hl3]; exact takeExactly_append isDigitB p.d3 _ hd3
  have h6 : takePlus isSpaceB (p.w3 ++ (p.sgn ++ (p.ip ++ ('.' :: (p.fp ++ p.rest))))) = some (p.sgn ++ (p.ip ++ ('.' :: (p.fp ++ p.rest)))) :=
    takePlus_append isSpaceB p.w3 _ hw3 hw3s
      (headNot_space_of_signednum p.sgn p.ip _ hsgn hip hipd)
  obtain ⟨r, h7⟩ :=
    takeNumber_isSome p.sgn p.ip p.fp p.rest hsgn hip hipd hfp hfpd
  rw [matchClock, ClockLineParts.render]
  simp only [h1, h2, h3, h4, h5, h6, h7, Option.bind_eq_bind,
    Option.some_bind, Option.isSome_some]

/-- A well-formed jump line matches the jump shape. -/
theorem matchJump_render (p : JumpLineParts) (h : p.WF) :
    matchJump p.render = true := by
  obtain ⟨hl1, hd1, hf1, hf1d, hw1, hw1s, hl2, hd2, hw2, hw2s,
    hsgn1, hip1, hip1d, hfp1, hfp1d, hw3, hw3s,
    hsgn2, hip2, hip2d, hfp2, hfp2d, hw4, hw4s,
    hwrd, hwrdw, hw5, hw5s, hl3, hd3⟩ := h
  have hne2 : p.d2 ≠ [] := ne_nil_of_length_eq_succ p.d2 6 hl2
  have hne3 : p.d3 ≠ [] := ne_nil_of_length_eq_succ p.d3 4 hl3
  have h1 : takeExactly isDigitB 5 (p.d1 ++ ('.' :: (p.f1 ++ (p.w1 ++ (p.d2 ++ (p.w2 ++ (p.sgn1 ++ (p.ip1 ++ ('.' :: (p.fp1 ++ (p.w3 ++ (p.sgn2 ++ (p.ip2 ++ ('.' :: (p.fp2 ++ (p.w4 ++ (p.wrd ++ (p.w5 ++ (p.d3 ++ p.rest))))))))))))))))))) = some ('.' :: (p.f1 ++ (p.w1 ++ (p.d2 ++ (p.w2 ++ (p.sgn1 ++ (p.ip1 ++ ('.' :: (p.fp1 ++ (p.w3 ++ (p.sgn2 ++ (p.ip2 ++ ('.' :: (p.fp2 ++ (p.w4 ++ (p.wrd ++ (p.w5 ++ (p.d3 ++ p.rest)))))))))))))))))) := by
    rw [← hl1]; exact takeExactly_append isDigitB p.d1 _ hd1
  have h2 : takeChar '.' ('.' :: (p.f1 ++ (p.w1 ++ (p.d2 ++ (p.w2 ++ (p.sgn1 ++ (p.ip1 ++ ('.' :: (p.fp1 ++ (p.w3 ++ (p.sgn2 ++ (p.ip2 ++ ('.' :: (p.fp2 ++ (p.w4 ++ (p.wrd ++ (p.w5 ++ (p.d3 ++ p.rest)))))))))))))))))) = some (p.f1 ++ (p.w1 ++ (p.d2 ++ (p.w2 ++ (p.sgn1 ++ (p.ip1 ++ ('.' :: (p.fp1 ++ (p.w3 ++ (p.sgn2 ++ (p.ip2 ++ ('.' :: (p.fp2 ++ (p.w4 ++ (p.wrd ++ (p.w5 ++ (p.d3 ++ p.rest))))))))))))))))) := takeChar_cons _ _
  have h3 : takePlus isDigitB (p.f1 ++ (p.w1 ++ (p.d2 ++ (p.w2 ++ (p.sgn1 ++ (p.ip1 ++ ('.' :: (p.fp1 ++ (p.w3 ++ (p.sgn2 ++ (p.ip2 ++ ('.' :: (p.fp2 ++ (p.w4 ++ (p.wrd ++ (p.w5 ++ (p.d3 ++ p.rest))))))))))))))))) = some (p.w1 ++ (p.d2 ++ (p.w2 ++ (p.sgn1 ++ (p.ip1 ++ ('.' :: (p.fp1 ++ (p.w3 ++ (p.sgn2 ++ (p.ip2 ++ ('.' :: (p.fp2 ++ (p.w4 ++ (p.wrd ++ (p.w5 ++ (p.d3 ++ p.rest)))))))))))))))) :=
    takePlus_append isDigitB p.f1 _ hf1 hf1d
      (headNot_digit_of_space p.w1 _ hw1 hw1s)
  have h4 : takePlus isSpaceB (p.w1 ++ (p.d2 ++ (p.w2 ++ (p.sgn1 ++ (p.ip1 ++ ('.' :: (p.fp1 ++ (p.w3 ++ (p.sgn2 ++ (p.ip2 ++ ('.' :: (p.fp2 ++ (p.w4 ++ (p.wrd ++ (p.w5 ++ (p.d3 ++ p.rest)))))))))))))))) = some (p.d2 ++ (p.w2 ++ (p.sgn1 ++ (p.ip1 ++ ('.' :: (p.fp1 ++ (p.w3 ++ (p.sgn2 ++ (p.ip2 ++ ('.' :: (p.fp2 ++ (p.w4 ++ (p.wrd ++ (p.w5 ++ (p.d3 ++ p.rest))))))))))))))) :=
    takePlus_append isSpaceB p.w1 _ hw1 hw1s
      (headNot_space_of_digitrun p.d2 _ hne2 hd2)
  have h5 : takeExactly isDigitB 7 (p.d2 ++ (p.w2 ++ (p.sgn1 ++ (p.ip1 ++ ('.' :: (p.fp1 ++ (p.w3 ++ (p.sgn2 ++ (p.ip2 ++ ('.' :: (p.fp2 ++ (p.w4 ++ (p.wrd ++ (p.w5 ++ (p.d3 ++ p.rest))))))))))))))) = some (p.w2 ++ (p.sgn1 ++ (p.ip1 ++ ('.' :: (p.fp1 ++ (p.w3 ++ (p.sgn2 ++ (p.ip2 ++ ('.' :: (p.fp2 ++ (p.w4 ++ (p.wrd ++ (p.w5 ++ (p.d3 ++ p.rest)))))))))))))) := by
    rw [← hl2]; exact takeExactly_append isDigitB p.d2 _ hd2
  have h6 : takePlus isSpaceB (p.w2 ++ (p.sgn1 ++ (p.ip1 ++ ('.' :: (p.fp1 ++ (p.w3 ++ (p.sgn2 ++ (p.ip2 ++ ('.' :: (p.fp2 ++ (p.w4 ++ (p.wrd ++ (p.w5 ++ (p.d3 ++ p.rest)))))))))))))) = some (p.sgn1 ++ (p.ip1 ++ ('.' :: (p.fp1 ++ (p.w3 ++ (p.sgn2 ++ (p.ip2 ++ ('.' :: (p.fp2 ++ (p.w4 ++ (p.wrd ++ (p.w5 ++ (p.d3 ++ p.rest))))))))))))) :=
    takePlus_append isSpaceB p.w2 _ hw2 hw2s
      (headNot_space_of_signednum p.sgn1 p.ip1 _ hsgn1 hip1 hip1d)
  have h7 : takeNumber (p.sgn1 ++ (p.ip1 ++ ('.' :: (p.fp1 ++ (p.w3 ++ (p.sgn2 ++ (p.ip2 ++ ('.' :: (p.fp2 ++ (p.w4 ++ (p.wrd ++ (p.w5 ++ (p.d3 ++ p.rest))))))))))))) = some (p.w3 ++ (p.sgn2 ++ (p.ip2 ++ ('.' :: (p.fp2 ++ (p.w4 ++ (p.wrd ++ (p.w5 ++ (p.d3 ++ p.rest))))))))) :=
    takeNumber_append p.sgn1 p.ip1 p.fp1 _ hsgn1 hip1 hip1d hfp1 hfp1d
      (headNot_digit_of_space p.w3 _ hw3 hw3s)
  have h8 : takePlus isSpaceB (p.w3 ++ (p.sgn2 ++ (p.ip2 ++ ('.' :: (p.fp2 ++ (p.w4 ++ (p.wrd ++ (p.w5 ++ (p.d3 ++ p.rest))))))))) = some (p.sgn2 ++ (p.ip2 ++ ('.' :: (p.fp2 ++ (p.w4 ++ (p.wrd ++ (p.w5 ++ (p.d3 ++ p.rest)))))))) :=
    takePlus_append isSpaceB p.w3 _ hw3 hw3s
      (headNot_space_of_signednum p.sgn2 p.ip2 _ hsgn2 hip2 hip2d)
  have h9 : takeNumber (p.sgn2 ++ (p.ip2 ++ ('.' :: (p.fp2 ++ (p.w4 ++ (p.wrd ++ (p.w5 ++ (p.d3 ++ p.rest)))))))) = some (p.w4 ++ (p.wrd ++ (p.w5 ++ (p.d3 ++ p.rest)))) :=
    takeNumber_append p.sgn2 p.ip2 p.fp2 _ hsgn2 hip2 hip2d hfp2 hfp2d
      (headNot_digit_of_space p.w4 _ hw4 hw4s)
  have h10 : takePlus isSpaceB (p.w4 ++ (p.wrd ++ (p.w5 ++ (p.d3 ++ p.rest)))) = some (p.wrd ++ (p.w5 ++ (p.d3 ++ p.rest))) :=
    takePlus_append isSpaceB p.w4 _ hw4 hw4s
      (by
        cases hw : p.wrd with
        | nil => exact absurd hw hwrd
        | cons c t =>
          rw [hw] at hwrdw
          simp only [List.all_cons, Bool.and_eq_true] at hwrdw
          simpa [headNot] using word_not_space c hwrdw.1)
  have h11 : takePlus isWordB (p.wrd ++ (p.w5 ++ (p.d3 ++ p.rest))) = some (p.w5 ++ (p.d3 ++ p.rest)) :=
    takePlus_append isWordB p.wrd _ hwrd hwrdw
      (headNot_word_of_space p.w5 _ hw5 hw5s)
  have h12 : takePlus isSpaceB (p.w5 ++ (p.d3 ++ p.rest)) = some (p.d3 ++ p.rest) :=
    takePlus_append isSpaceB p.w5 _ hw5 hw5s
      (headNot_space_of_digitrun p.d3 _ hne3 hd3)
  have h13 : takeExactly isDigitB 5 (p.d3 ++ p.rest) = some p.rest := by
    rw [← hl3]; exact takeExactly_append isDigitB p.d3 _ hd3
  rw [matchJump, JumpLineParts.render]
  simp only [h1, h2, h3, h4, h5, h6, h7, h8, h9, h10, h11, h12, h13,
    Option.bind_eq_bind, Option.some_bind, Option.isSome_some]

/-- C9: every well-formed clock-value line matches the clock-value shape
and not the jump shape, and every well-formed jump line matches the jump
shape and not the clock-value shape; the matchers are pure boolean
functions of the line. -/
theorem C9_shape_classification (p : ClockLineParts) (q : JumpLineParts) :
    (p.WF → matchClock p.render = true ∧ matchJump p.render = false)
    ∧ (q.WF → matchJump q.render = true ∧ matchClock q.render = false) := by
  constructor
  · intro h
    have hc := matchClock_render p h
    exact ⟨hc, matchClock_not_matchJump _ hc⟩
  · intro h
    have hj := matchJump_render q h
    exact ⟨hj, matchJump_not_matchClock _ hj⟩

/-- Concrete well-formed clock line constituents for the C9 witness. -/
def cwParts : ClockLineParts :=
  ⟨"59000".data, [' '], "00100".data, [' '], "1234567".data, [' '],
   ['-'], "123".data, "4567".data, []⟩

/-- Concrete well-formed jump line constituents for the C9 witness. -/
def jwParts : JumpLineParts :=
  ⟨"57754".data, "50".data, [' '], "1234567".data, [' '],
   ['-'], "0".data, "500000".data, [' '],
   [], "0".data, "0000000".data, [' '],
   "OPMT".data, [' '], "12345".data, []⟩

/-- C9 witness: the classification applied to one concrete well-formed
clock line and one concrete well-formed jump line. -/
theorem C9_shape_classification_witness :
    matchClock cwParts.render = true ∧ matchJump cwParts.render = false
    ∧ matchJump jwParts.render = true ∧ matchClock jwParts.render = false :=
  ⟨((C9_shape_classification cwParts jwParts).1
      (by unfold ClockLineParts.WF; decide)).1,
   ((C9_shape_classification cwParts jwParts).1
      (by unfold ClockLineParts.WF; decide)).2,
   ((C9_shape_classification cwParts jwParts).2
      (by unfold JumpLineParts.WF; decide)).1,
   ((C9_shape_classification cwParts jwParts).2
      (by unfold JumpLineParts.WF; decide)).2⟩

/-! ### Clock-value line processing -/

theorem slotStep_ok (L : Nat) (ascii : List Char) (st : PState) (i : Nat)
    (lc : ℤ) (m : ℚ) (cc : ℤ) (v : ℚ)
    (hcr : st.crashed = false)
    (hlen : 12 + i * 18 + 18 ≤ L)
    (hlc : st.env.lab_code = some lc) (hm : st.env.mjd = some m)
    (hcc : parseInt (pySlice ascii (12 + i * 18) (12 + i * 18 + 7)) = some cc)
    (hv : parseFloat (pySlice ascii (12 + i * 18 + 8) (12 + i * 18 + 17))
        = some v) :
    slotStep L ascii st i = { st with diffs := st.diffs ++ [⟨lc, cc, m, v⟩] } := by
  have hgt : ¬ (12 + i * 18 + 18 > L) := by omega
  simp [slotStep, hcr, hgt, hcc, hv, hlc, hm]

theorem processLine_clock_only (st : PState) (raw : List Nat)
    (hcr : st.crashed = false) (hascii : hasNonAscii raw = false)
    (hmatch : matchClock (decodeAscii raw) = true)
    (hnj : matchJump (decodeAscii raw) = false) :
    processLine st raw = clockBranch raw.length (decodeAscii raw) st := by
  unfold processLine
  simp [hcr, hascii, hmatch, hnj]

/-- C3: a clock-value line carrying five well-formed 18-column slots
appends exactly five records, all sharing the mjd parsed from columns
[0,5) and the lab_code parsed from columns [6,11); slot i contributes the
clock code from the seven columns at offset 12 + i*18 and the value from
columns [8,17) of the slot. -/
theorem C3_five_slot_clock_line
    (raw : List Nat) (st : PState) (m lc : ℤ)
    (cc0 cc1 cc2 cc3 cc4 : ℤ) (v0 v1 v2 v3 v4 : ℚ)
    (hcr : st.crashed = false)
    (hascii : hasNonAscii raw = false)
    (hmatch : matchClock (decodeAscii raw) = true)
    (hlen : 102 ≤ raw.length)
    (hm : parseInt (pySlice (decodeAscii raw) 0 5) = some m)
    (hlc : parseInt (pySlice (decodeAscii raw) 6 11) = some lc)
    (h0c : parseInt (pySlice (decodeAscii raw) 12 19) = some cc0)
    (h0v : parseFloat (pySlice (decodeAscii raw) 20 29) = some v0)
    (h1c : parseInt (pySlice (decodeAscii raw) 30 37) = some cc1)
    (h1v : parseFloat (pySlice (decodeAscii raw) 38 47) = some v1)
    (h2c : parseInt (pySlice (decodeAscii raw) 48 55) = some cc2)
    (h2v : parseFloat (pySlice (decodeAscii raw) 56 65) = some v2)
    (h3c : parseInt (pySlice (decodeAscii raw) 66 73) = some cc3)
    (h3v : parseFloat (pySlice (decodeAscii raw) 74 83) = some v3)
    (h4c : parseInt (pySlice (decodeAscii raw) 84 91) = some cc4)
    (h4v : parseFloat (pySlice (decodeAscii raw) 92 101) = some v4) :
    processLine st raw
      = { st with
          env := ⟨some (m : ℚ), some lc, st.env.lab_acronym⟩,
          diffs := st.diffs
            ++ [⟨lc, cc0, (m : ℚ), v0⟩, ⟨lc, cc1, (m : ℚ), v1⟩,
                ⟨lc, cc2, (m : ℚ), v2⟩, ⟨lc, cc3, (m : ℚ), v3⟩,
                ⟨lc, cc4, (m : ℚ), v4⟩] } := by
  have hnj := matchClock_not_matchJump _ hmatch
  rw [processLine_clock_only st raw hcr hascii hmatch hnj]
  have g0 : ¬ (12 + 0 * 18 + 18 > raw.length) := by omega
  have g1 : ¬ (12 + 1 * 18 + 18 > raw.length) := by omega
  have g2 : ¬ (12 + 2 * 18 + 18 > raw.length) := by omega
  have g3 : ¬ (12 + 3 * 18 + 18 > raw.length) := by omega
  have g4 : ¬ (12 + 4 * 18 + 18 > raw.length) := by omega
  simp [clockBranch, clockHeader, hm, hlc, slotStep, hcr, g0, g1, g2, g3, g4,
    h0c, h0v, h1c, h1v, h2c, h2v, h3c, h3v, h4c, h4v]

/-- A concrete clock-value line with five well-formed slots (102 columns,
so the length guard admits all five slots). -/
def rawL3 : List Nat := strBytes
  "59000 00100 1234567 -123.4567 2234567 0001.5000 3234567 12.345678 4234567 .00000001 5234567 +4.250000 "


unseal Rat.mul Rat.inv Rat.add Rat.sub in
/-- C3 witness: the five-slot claim instantiated on the concrete line. -/
theorem C3_five_slot_clock_line_witness :
    processLine initState rawL3
      = { initState with
          env := ⟨some ((59000 : ℤ) : ℚ), some 100,
            initState.env.lab_acronym⟩,
          diffs := initState.diffs
            ++ [⟨100, 1234567, ((59000 : ℤ) : ℚ), -1234567 / 10000⟩,
                ⟨100, 2234567, ((59000 : ℤ) : ℚ), 3 / 2⟩,
                ⟨100, 3234567, ((59000 : ℤ) : ℚ), 6172839 / 500000⟩,
                ⟨100, 4234567, ((59000 : ℤ) : ℚ), 1 / 100000000⟩,
                ⟨100, 5234567, ((59000 : ℤ) : ℚ), 17 / 4⟩] } :=
  C3_five_slot_clock_line rawL3 initState 59000 100
    1234567 2234567 3234567 4234567 5234567
    (-1234567 / 10000) (3 / 2) (6172839 / 500000) (1 / 100000000) (17 / 4)
    rfl (by decide) (by decide) (by decide) (by decide) (by decide)
    (by decide) (by decide) (by decide) (by decide) (by decide)
    (by decide) (by decide) (by decide) (by decide) (by decide)

/-! ### Jump line processing -/

/-- The six fixed-column jump fields, parsed in program order; none when
any of them fails (the lab_acronym slice itself can never fail). -/
def jumpSixFields (ascii : List Char) : Option JRec := do
  let m ← parseFloat (pySlice ascii 0 8)
  let cc ← parseInt (pySlice ascii 9 16)
  let ts ← parseFloat (pySlice ascii 17 26)
  let fs ← parseFloat (pySlice ascii 27 36)
  let lc ← parseInt (pySlice ascii 45 50)
  pure ⟨lc, pySlice ascii 40 44, cc, m, ts, fs⟩

theorem jumpFail_spec (st : PState) :
    (jumpFail st).jumps = st.jumps ∧ (jumpFail st).diffs = st.diffs
    ∧ ((jumpFail st).diags = st.diags ++ [Diag.jumpError]
      ∨ (jumpFail st).diags = st.diags ++ [Diag.jumpError, Diag.acronymWarning]) := by
  unfold jumpFail
  cases h : st.env.lab_acronym with
  | none => simp [h]
  | some a =>
    by_cases hm : matchAcronym a
    · simp [h, hm]
    · simp [h, hm]

theorem processLine_jump_only (st : PState) (raw : List Nat)
    (hcr : st.crashed = false) (hascii : hasNonAscii raw = false)
    (hj : matchJump (decodeAscii raw) = true) :
    processLine st raw = jumpBranch (decodeAscii raw) st := by
  have hnc := matchJump_not_matchClock _ hj
  unfold processLine
  simp [hcr, hascii, hnc, hj]

theorem jumpFail_frame (st : PState) (d : List VRec) (j : List JRec)
    (g : List Diag) (hd : st.diffs = d) (hjj : st.jumps = j)
    (hg : st.diags = g) :
    (jumpFail st).jumps = j ∧ (jumpFail st).diffs = d
    ∧ ((jumpFail st).diags = g ++ [Diag.jumpError]
      ∨ (jumpFail st).diags = g ++ [Diag.jumpError, Diag.acronymWarning]) := by
  subst hd; subst hjj; subst hg
  exact jumpFail_spec st

/-- C4: on a jump-shaped line, if parsing any of the six fixed-column
fields fails, an error is emitted and no jump record is appended: the
jumps collection (and the values collection) is exactly as before the
line. -/
theorem C4_jump_parse_failure_atomic (raw : List Nat) (st : PState)
    (hcr : st.crashed = false) (hascii : hasNonAscii raw = false)
    (hj : matchJump (decodeAscii raw) = true)
    (hfail : jumpSixFields (decodeAscii raw) = none) :
    (processLine st raw).jumps = st.jumps
    ∧ (processLine st raw).diffs = st.diffs
    ∧ ((processLine st raw).diags = st.diags ++ [Diag.jumpError]
      ∨ (processLine st raw).diags
          = st.diags ++ [Diag.jumpError, Diag.acronymWarning]) := by
  rw [processLine_jump_only st raw hcr hascii hj]
  unfold jumpSixFields at hfail
  unfold jumpBranch
  cases h1 : parseFloat (pySlice (decodeAscii raw) 0 8) with
  | none => simp only [h1]; exact jumpFail_frame _ _ _ _ rfl rfl rfl
  | some m =>
    cases h2 : parseInt (pySlice (decodeAscii raw) 9 16) with
    | none => simp only [h1, h2]; exact jumpFail_frame _ _ _ _ rfl rfl rfl
    | some cc =>
      cases h3 : parseFloat (pySlice (decodeAscii raw) 17 26) with
      | none => simp only [h1, h2, h3]; exact jumpFail_frame _ _ _ _ rfl rfl rfl
      | some ts =>
        cases h4 : parseFloat (pySlice (decodeAscii raw) 27 36) with
        | none =>
          simp only [h1, h2, h3, h4]
          exact jumpFail_frame _ _ _ _ rfl rfl rfl
        | some fs =>
          cases h5 : parseInt (pySlice (decodeAscii raw) 45 50) with
          | none =>
            simp only [h1, h2, h3, h4, h5]
            exact jumpFail_frame _ _ _ _ rfl rfl rfl
          | some lc =>
            exfalso
            rw [h1, h2, h3, h4, h5] at hfail
            simp at hfail

/-- A concrete jump-shaped line on which the fixed-column time_step slice
holds parts of two numbers and fails to parse as a float. -/
def rawL4 : List Nat := strBytes "57754.5  1234567  -1.5 2.5 ABCD 12345"

unseal Rat.mul Rat.inv Rat.add Rat.sub in
/-- C4 witness: the atomic-discard claim instantiated on the concrete
misaligned jump line, starting from the initial state. -/
theorem C4_jump_parse_failure_atomic_witness :
    (processLine initState rawL4).jumps = initState.jumps
    ∧ (processLine initState rawL4).diffs = initState.diffs
    ∧ ((processLine initState rawL4).diags
          = initState.diags ++ [Diag.jumpError]
      ∨ (processLine initState rawL4).diags
          = initState.diags ++ [Diag.jumpError, Diag.acronymWarning]) :=
  C4_jump_parse_failure_atomic rawL4 initState rfl (by decide) (by decide)
    (by decide)

/-- A jump line whose six fields all parse and whose lab acronym columns
[40,44) hold the lowercase string abcd. -/
def rawL5 : List Nat := strBytes
  "57754.50 1234567 -0.500000 0.0000000    abcd 12345"

unseal Rat.mul Rat.inv Rat.add Rat.sub in
/-- C5: evaluation of the code on a fully parseable jump line with a
non-uppercase acronym: the jump record is appended, but no acronym
warning is emitted (the acronym check sits in the unreachable failure
branch of the source), contradicting the claim that a warning is always
emitted for such lines. -/
theorem C5_acronym_no_warning_on_success :
    processLine initState rawL5
      = ⟨false,
         ⟨some (115509 / 2), some 12345, some ('a' :: ['b', 'c', 'd'])⟩,
         [],
         [⟨12345, 'a' :: ['b', 'c', 'd'], 1234567, 115509 / 2, -1 / 2, 0⟩],
         []⟩ := by
  decide

/-- A clock-shaped line whose lab_code columns [6,11) are all blank (the
first whitespace run is seven columns wide) while slot 0 still parses:
clock code 12345 from columns [12,19) and value 123.0 from columns
[20,29). -/
def rawL6 : List Nat := strBytes "12345       12345         1234567 1.0"

unseal Rat.mul Rat.inv Rat.add Rat.sub in
/-- C6: evaluation of the code on a clock line whose lab_code field fails
to parse, as the first line of the run: the error is logged, but the
first successful slot append reads the never-assigned local lab_code and
raises UnboundLocalError, crashing the parse — the line is aborted with
no record appended, and the rest of the batch (here a well-formed second
file) is never processed, contradicting the claim that slot extraction
still proceeds for that line. -/
theorem C6_mjd_labcode_failure_crashes :
    parse_clockfile [("data", [rawL6])] "data" initState
      = ⟨true, ⟨some ((12345 : ℤ) : ℚ), none, none⟩, [], [],
         [Diag.mjdLabError]⟩
    ∧ runBatch [("data", [rawL6]), ("other", [rawL3])] ["data", "other"]
        initState
      = ⟨true, ⟨some ((12345 : ℤ) : ℚ), none, none⟩, [], [],
         [Diag.mjdLabError]⟩ := by
  constructor
  · decide
  · decide

/-! ### Missing files and the batch loop -/

/-- C8: parsing a path that does not exist reports an error and returns
without reading anything — the caller-supplied collections are unchanged —
and the batch continues with the remaining files. -/
theorem C8_missing_file (fs : List (String × List (List Nat))) (p : String)
    (st : PState) (rest : List String)
    (hmiss : fs.lookup p = none) (hcr : st.crashed = false) :
    parse_clockfile fs p st
      = { st with diags := st.diags ++ [Diag.missingFileError] }
    ∧ runBatch fs (p :: rest) st
      = runBatch fs rest
          { st with diags := st.diags ++ [Diag.missingFileError] } := by
  have h1 : parse_clockfile fs p st
      = { st with diags := st.diags ++ [Diag.missingFileError] } := by
    unfold parse_clockfile
    rw [hmiss]
  refine ⟨h1, ?_⟩
  unfold runBatch
  simp [hcr, h1]

/-- C8 witness: a missing path in an empty filesystem, followed by one
more file in the batch. -/
theorem C8_missing_file_witness :
    parse_clockfile [] "clocks" initState
      = { initState with diags := [Diag.missingFileError] }
    ∧ runBatch ([] : List (String × List (List Nat))) ["clocks", "other"]
        initState
      = runBatch [] ["other"]
          { initState with diags := [Diag.missingFileError] } :=
  C8_missing_file [] "clocks" initState ["other"] rfl rfl

/-! ### Append-only behaviour of the parser (frame property) -/

/-- The same parser state with the three accumulating lists emptied. -/
def pclear (st : PState) : PState :=
  { st with diffs := [], jumps := [], diags := [] }

/-- A state transformer is a frame function when it only ever appends to
the three lists, with appended records that depend on the crashed flag and
the environment but never on the previous list contents. -/
def FrameFn (f : PState → PState) : Prop :=
  ∀ st : PState,
    f st = { f (pclear st) with
             diffs := st.diffs ++ (f (pclear st)).diffs,
             jumps := st.jumps ++ (f (pclear st)).jumps,
             diags := st.diags ++ (f (pclear st)).diags }

theorem frame_id : FrameFn (fun st => st) := by
  intro st
  obtain ⟨c, e, d, j, g⟩ := st
  simp [pclear]

theorem frame_append_diag (ds : List Diag) :
    FrameFn (fun st => { st with diags := st.diags ++ ds }) := by
  intro st
  obtain ⟨c, e, d, j, g⟩ := st
  simp [pclear]

theorem frame_set_env (u : Env → Env) :
    FrameFn (fun st => { st with env := u st.env }) := by
  intro st
  obtain ⟨c, e, d, j, g⟩ := st
  simp [pclear]

theorem frame_comp {f g : PState → PState}
    (hf : FrameFn f) (hg : FrameFn g) : FrameFn (fun st => g (f st)) := by
  intro st
  dsimp only
  have hpc : pclear (f st) = pclear (f (pclear st)) := by
    rw [hf st]; rfl
  have hd : (f st).diffs = st.diffs ++ (f (pclear st)).diffs := by
    rw [hf st]
  have hj : (f st).jumps = st.jumps ++ (f (pclear st)).jumps := by
    rw [hf st]
  have hg2 : (f st).diags = st.diags ++ (f (pclear st)).diags := by
    rw [hf st]
  rw [hg (f st), hg (f (pclear st)), hpc, hd, hj, hg2]
  simp [List.append_assoc]

theorem frame_if_const (b : Bool) {f g : PState → PState}
    (hf : FrameFn f) (hg : FrameFn g) :
    FrameFn (fun st => if b then f st else g st) := by
  cases b with
  | false => exact hg
  | true => exact hf

theorem frame_guard {f : PState → PState} (hf : FrameFn f) :
    FrameFn (fun st => if st.crashed then st else f st) := by
  intro st
  obtain ⟨c, e, d, j, g⟩ := st
  cases c with
  | true => simp [pclear]
  | false => exact hf ⟨false, e, d, j, g⟩

theorem slotStep_frame (L : Nat) (a : List Char) (i : Nat) :
    FrameFn (fun st => slotStep L a st i) := by
  intro st
  obtain ⟨c, e, d, j, g⟩ := st
  obtain ⟨me, mlc, mac⟩ := e
  cases c with
  | true => simp [slotStep, pclear]
  | false =>
    by_cases hl : 12 + i * 18 + 18 > L
    · simp [slotStep, pclear, hl]
    · cases hcc : parseInt (pySlice a (12 + i * 18) (12 + i * 18 + 7)) with
      | none => simp [slotStep, pclear, hl, hcc]
      | some cc =>
        cases hv : parseFloat (pySlice a (12 + i * 18 + 8) (12 + i * 18 + 17)) with
        | none => simp [slotStep, pclear, hl, hcc, hv]
        | some v =>
          cases mlc <;> cases me <;> simp [slotStep, pclear, hl, hcc, hv]

theorem clockHeader_frame (a : List Char) : FrameFn (clockHeader a) := by
  intro st
  obtain ⟨c, e, d, j, g⟩ := st
  cases hm : parseInt (pySlice a 0 5) with
  | none => simp [clockHeader, pclear, hm]
  | some m =>
    cases hlc : parseInt (pySlice a 6 11) with
    | none => simp [clockHeader, pclear, hm, hlc]
    | some lc => simp [clockHeader, pclear, hm, hlc]

theorem clockBranch_frame (L : Nat) (a : List Char) :
    FrameFn (fun st => clockBranch L a st) := by
  show FrameFn (fun st =>
    slotStep L a (slotStep L a (slotStep L a (slotStep L a
      (slotStep L a (clockHeader a st) 0) 1) 2) 3) 4)
  exact frame_comp (frame_comp (frame_comp (frame_comp
    (frame_comp (clockHeader_frame a) (slotStep_frame L a 0))
    (slotStep_frame L a 1)) (slotStep_frame L a 2))
    (slotStep_frame L a 3)) (slotStep_frame L a 4)

theorem frame_jumpFail : FrameFn jumpFail := by
  intro st
  obtain ⟨c, e, d, j, g⟩ := st
  obtain ⟨me, mlc, mac⟩ := e
  cases mac with
  | none => simp [jumpFail, pclear]
  | some acr =>
    by_cases ha : matchAcronym acr <;> simp [jumpFail, pclear, ha]

theorem frame_jumpBranch (a : List Char) : FrameFn (jumpBranch a) := by
  intro st
  cases h1 : parseFloat (pySlice a 0 8) with
  | none =>
    simp only [jumpBranch, h1]
    exact frame_jumpFail st
  | some m =>
    cases h2 : parseInt (pySlice a 9 16) with
    | none =>
      simp only [jumpBranch, h1, h2]
      exact (frame_comp (frame_set_env (fun en => { en with mjd := some m }))
        frame_jumpFail) st
    | some cc =>
      cases h3 : parseFloat (pySlice a 17 26) with
      | none =>
        simp only [jumpBranch, h1, h2, h3]
        exact (frame_comp (frame_set_env (fun en => { en with mjd := some m }))
          frame_jumpFail) st
      | some ts =>
        cases h4 : parseFloat (pySlice a 27 36) with
        | none =>
          simp only [jumpBranch, h1, h2, h3, h4]
          exact (frame_comp (frame_set_env (fun en => { en with mjd := some m }))
            frame_jumpFail) st
        | some fs =>
          cases h5 : parseInt (pySlice a 45 50) with
          | none =>
            simp only [jumpBranch, h1, h2, h3, h4, h5]
            exact (frame_comp (frame_set_env (fun en =>
              { en with mjd := some m, lab_acronym := some (pySlice a 40 44) }))
              frame_jumpFail) st
          | some lc =>
            obtain ⟨c, e, d, j, g⟩ := st
            simp [jumpBranch, pclear, h1, h2, h3, h4, h5]

theorem processLine_frame (raw : List Nat) :
    FrameFn (fun st => processLine st raw) := by
  have h1 : FrameFn (fun st =>
      if hasNonAscii raw then
        { st with diags := st.diags ++ [Diag.nonAsciiWarning] }
      else st) :=
    frame_if_const _ (frame_append_diag _) frame_id
  have h2 : FrameFn (fun st =>
      if matchClock (decodeAscii raw) then
        clockBranch raw.length (decodeAscii raw) st
      else st) :=
    frame_if_const _ (clockBranch_frame _ _) frame_id
  have h3 : FrameFn (fun st =>
      if st.crashed then st
      else if matchJump (decodeAscii raw) then jumpBranch (decodeAscii raw) st
      else st) :=
    frame_guard (frame_if_const _ (frame_jumpBranch _) frame_id)
  exact frame_guard (frame_comp (frame_comp h1 h2) h3)

theorem parseLines_frame (lines : List (List Nat)) :
    FrameFn (fun st => lines.foldl processLine st) := by
  induction lines with
  | nil => exact frame_id
  | cons l t ih => exact frame_comp (processLine_frame l) ih

theorem parse_clockfile_frame (fs : List (String × List (List Nat)))
    (p : String) : FrameFn (fun st => parse_clockfile fs p st) := by
  intro st
  unfold parse_clockfile
  cases hlk : fs.lookup p with
  | none =>
    simp only [hlk]
    exact frame_append_diag [Diag.missingFileError] st
  | some lines =>
    simp only [hlk]
    exact (frame_comp (frame_set_env (fun _ => Env.empty))
      (parseLines_frame lines)) st

/-- C10: parse_clockfile is append-only with respect to the caller-supplied
collections: each of the values list, the jumps list and the diagnostics
list after the call equals its prior contents followed by exactly the
records the same call produces when started from empty collections. -/
theorem C10_parse_append_only (fs : List (String × List (List Nat)))
    (p : String) (st : PState) :
    (parse_clockfile fs p st).diffs
      = st.diffs ++ (parse_clockfile fs p (pclear st)).diffs
    ∧ (parse_clockfile fs p st).jumps
      = st.jumps ++ (parse_clockfile fs p (pclear st)).jumps
    ∧ (parse_clockfile fs p st).diags
      = st.diags ++ (parse_clockfile fs p (pclear st)).diags := by
  have h := parse_clockfile_frame fs p st
  dsimp only at h
  rw [h]
  simp
